import Mathlib

/-
Verification development for a tutorial-site scraper (single source file,
`g4g_scraper.py`).  The two core functions — the Section Locator
(`find_topic_section`) and the Article Formatter (`extract_article_content`) —
together with the orchestration (`scrape_from_url`, `main`) are shallowly
embedded below.  Parsed HTML is modelled as an immutable node tree carrying a
tag name, a class list, an optional `href` attribute and child nodes; external
library behaviour (BeautifulSoup parsing, `urljoin`, HTTP fetching) is taken as
function parameters, while everything the repository itself computes is
translated directly from the source.
-/

/-- A parsed markup node: either a text node or an element with a tag name,
a class list, an optional href attribute and children.  This mirrors the
parts of the BeautifulSoup tree the scraper actually reads. -/
inductive Node where
  | text (s : String)
  | elem (tag : String) (classes : List String) (href : Option String) (children : List Node)

mutual
/-- Structural boolean equality of nodes. -/
def Node.beq : Node → Node → Bool
  | .text s, .text s' => s == s'
  | .elem t c h ch, .elem t' c' h' ch' =>
      t == t' && c == c' && h == h' && Node.beqList ch ch'
  | _, _ => false

/-- Structural boolean equality of node lists. -/
def Node.beqList : List Node → List Node → Bool
  | [], [] => true
  | a :: as, b :: bs => Node.beq a b && Node.beqList as bs
  | _, _ => false
end

mutual
theorem Node.beq_iff : (a b : Node) → (Node.beq a b = true ↔ a = b)
  | .text _, .text _ => by simp [Node.beq]
  | .text _, .elem .. => by simp [Node.beq]
  | .elem .., .text _ => by simp [Node.beq]
  | .elem t c h ch, .elem t' c' h' ch' => by
      simp [Node.beq, Node.beqList_iff ch ch', and_assoc]

theorem Node.beqList_iff : (as bs : List Node) → (Node.beqList as bs = true ↔ as = bs)
  | [], [] => by simp [Node.beqList]
  | [], _ :: _ => by simp [Node.beqList]
  | _ :: _, [] => by simp [Node.beqList]
  | a :: as, b :: bs => by
      simp [Node.beqList, Node.beq_iff a b, Node.beqList_iff as bs]
end

instance : DecidableEq Node :=
  fun a b => decidable_of_iff _ (Node.beq_iff a b)

/-- The tag name of a node (text nodes have none). -/
def tagOf : Node → Option String
  | .text _ => none
  | .elem t _ _ _ => some t

/-- The class list of a node (`element.get('class', [])`). -/
def classesOf : Node → List String
  | .text _ => []
  | .elem _ c _ _ => c

/-- The href attribute of a node (`element.get('href')`). -/
def hrefOf : Node → Option String
  | .text _ => none
  | .elem _ _ h _ => h

/-- `isTagB t n` holds when `n` is an element with tag name `t`. -/
def isTagB (t : String) (n : Node) : Bool :=
  match n with
  | .text _ => false
  | .elem t' _ _ _ => t' == t

mutual
/-- All text-node strings in a node's subtree, in document order
(the `.strings` of BeautifulSoup). -/
def textsOf : Node → List String
  | .text s => [s]
  | .elem _ _ _ ch => textsOfList ch

def textsOfList : List Node → List String
  | [] => []
  | c :: cs => textsOf c ++ textsOfList cs
end

/-- Python's `str.strip()`: drop whitespace from both ends.  Implemented over
the character list so that it evaluates inside the kernel. -/
def pyStrip (s : String) : String :=
  String.mk (((s.data.dropWhile Char.isWhitespace).reverse.dropWhile Char.isWhitespace).reverse)

/-- `startsWithChars l p` — `l` begins with the pattern `p`. -/
def startsWithChars : List Char → List Char → Bool
  | _, [] => true
  | [], _ :: _ => false
  | c :: cs, p :: ps => c == p && startsWithChars cs ps

/-- Python's `p in s` substring test, over character lists. -/
def containsChars : List Char → List Char → Bool
  | [], p => p.isEmpty
  | c :: cs, p => startsWithChars (c :: cs) p || containsChars cs p

/-- Scanner for `removeAllChars`: `skip` counts characters still to drop from
an occurrence already matched. -/
def removeAux (p : List Char) : List Char → Nat → List Char
  | [], _ => []
  | c :: cs, skip =>
    match skip with
    | k + 1 => removeAux p cs k
    | 0 =>
      if p ≠ [] ∧ startsWithChars (c :: cs) p then removeAux p cs (p.length - 1)
      else c :: removeAux p cs 0

/-- Python's `s.replace(p, '')` — drop every non-overlapping occurrence of
`p`, scanning left to right. -/
def removeAllChars (l p : List Char) : List Char := removeAux p l 0

/-- Python's `s.split(sep)` for a one-character separator. -/
def splitCharAux (sep : Char) : List Char → List Char → List String
  | [], acc => [String.mk acc.reverse]
  | c :: cs, acc =>
    if c == sep then String.mk acc.reverse :: splitCharAux sep cs []
    else splitCharAux sep cs (c :: acc)

/-- Python's `s.split(sep)` for a one-character separator. -/
def splitChar (s : String) (sep : Char) : List String := splitCharAux sep s.data []

/-- `s.endswith('/')` over the character list. -/
def endsWithSlash (s : String) : Bool := s.data.getLast? == some '/'

/-- `element.get_text()` — concatenation of all subtree strings. -/
def getText (n : Node) : String := String.join (textsOf n)

/-- `element.get_text(strip=True)` — each string stripped of surrounding
whitespace before concatenation (empty pieces contribute nothing). -/
def getTextStrip (n : Node) : String :=
  String.join ((textsOf n).map (fun s => pyStrip s))

mutual
/-- All strict descendants of a node, in document (pre-)order.  This is the
order in which BeautifulSoup's `find_all` and `next_elements` traverse. -/
def preorder : Node → List Node
  | .text _ => []
  | .elem _ _ _ ch => preorderList ch

def preorderList : List Node → List Node
  | [] => []
  | c :: cs => c :: (preorder c ++ preorderList cs)
end

mutual
/-- All strict descendants of a node paired with their parent element,
in document order.  `(.parent)` lookups read the second component. -/
def enumNP : Node → List (Node × Node)
  | .text _ => []
  | .elem t c h ch => enumNPList (Node.elem t c h ch) ch

def enumNPList : Node → List Node → List (Node × Node)
  | _, [] => []
  | p, c :: cs => (c, p) :: (enumNP c ++ enumNPList p cs)
end

/-- The elements of `l` strictly after the first occurrence of `x`.
Applied to a document preorder this models BeautifulSoup's `next_elements`
of `x` (its own descendants come first, then the rest of the document). -/
def afterFirst : List Node → Node → List Node
  | [], _ => []
  | y :: ys, x => if y = x then ys else afterFirst ys x

/-- `find_all(t)` within `n`: all strict descendants with tag `t`. -/
def findAllTag (n : Node) (t : String) : List Node :=
  (preorder n).filter (isTagB t)

/-- `n.find_all(tags)` for a list of tag names, in document order. -/
def matchesTags (tags : List String) (n : Node) : Bool :=
  match n with
  | .text _ => false
  | .elem t _ _ _ => tags.contains t

/-- Multi-tag `find_all`, returning matching descendants in document order. -/
def findAllTags (tags : List String) (n : Node) : List Node :=
  (preorder n).filter (matchesTags tags)

/-- `doc.find_all(t)` paired with each match's parent. -/
def findAllTagP (doc : Node) (t : String) : List (Node × Node) :=
  (enumNP doc).filter (fun pr => isTagB t pr.1)

/-- `n.find(p)` — the first descendant satisfying `p`, in document order. -/
def findFirst (n : Node) (p : Node → Bool) : Option Node :=
  (preorder n).find? p

/-- `h.find_next(t)` relative to document `doc`: the first element with tag
`t` occurring strictly after `h` in document order. -/
def findNextTag (doc h : Node) (t : String) : Option Node :=
  (afterFirst (preorder doc) h).find? (isTagB t)

/-! ## Section Locator (`find_topic_section`) -/

/-- The known container class names, in the source's fixed priority order. -/
def containerClasses : List String :=
  ["post-content", "entry-content", "article-content"]

/-- `len(n.find_all('a'))` — number of anchor descendants of `n`. -/
def countLinksIn (n : Node) : Nat := (findAllTag n "a").length

/-- A heading qualifies under the first pattern when the next `ul` after it
(in document order) contains at least 3 anchors. -/
def qualifiesHeader (doc h : Node) : Bool :=
  match findNextTag doc h "ul" with
  | some ul => decide (3 ≤ countLinksIn ul)
  | none => false

/-- First pattern: scan all `h2` elements in document order, then all `h3`
elements, returning the first qualifying heading together with its parent. -/
def firstQualifying (doc : Node) : Option (Node × Node) :=
  match (findAllTagP doc "h2").find? (fun pr => qualifiesHeader doc pr.1) with
  | some pr => some pr
  | none => (findAllTagP doc "h3").find? (fun pr => qualifiesHeader doc pr.1)

/-- Second pattern: the parent of the first `ul` containing at least 5
anchors. -/
def denseListParent (doc : Node) : Option Node :=
  ((findAllTagP doc "ul").find? (fun pr => decide (5 ≤ countLinksIn pr.1))).map
    (fun pr => pr.2)

/-- Third pattern: for each known class name in priority order, the first
`div` carrying that class, provided it contains at least one anchor. -/
def knownContainer (doc : Node) : Option Node :=
  containerClasses.findSome? (fun cn =>
    match (preorder doc).find? (fun n => isTagB "div" n && (classesOf n).contains cn) with
    | some d => if (findAllTag d "a").isEmpty then none else some d
    | none => none)

/-- `find_topic_section`: the three patterns applied in fixed priority order,
returning the first success, or `none` when all fail. -/
def findTopicSection (doc : Node) : Option Node :=
  match firstQualifying doc with
  | some pr => some pr.2
  | none =>
    match denseListParent doc with
    | some c => some c
    | none => knownContainer doc

/-! ## Article Formatter (`extract_article_content`) -/

/-- The code-block accumulator threaded through the element loop, with the
emitted fragments and a ghost counter recording how many times the
flush branch (`if in_code_block and current_code_block`) fired. -/
structure FmtState where
  inCode : Bool
  codeBlock : List String
  language : Option String
  out : List String
  flushes : Nat

/-- The fenced code fragment built at a flush:
three backticks, the language (or nothing), the joined chunks, closing fence. -/
def fenceStr (lang : Option String) (chunks : List String) : String :=
  "\n```" ++ (match lang with | some l => l | none => "") ++ "\n"
    ++ String.join chunks ++ "\n```\n"

/-- Flush an open, non-empty accumulator; otherwise leave the state alone
(`if in_code_block and current_code_block: ...`). -/
def flushAcc (s : FmtState) : FmtState :=
  if s.inCode && !s.codeBlock.isEmpty then
    { inCode := false, codeBlock := [], language := s.language,
      out := s.out ++ [fenceStr s.language s.codeBlock],
      flushes := s.flushes + 1 }
  else s

/-- Heading elements dispatched by the loop (`h2`, `h3`, `h4`). -/
def isHeadingEl (n : Node) : Bool :=
  match n with
  | .text _ => false
  | .elem t _ _ _ => t == "h2" || t == "h3" || t == "h4"

/-- Paragraph elements. -/
def isParaEl (n : Node) : Bool :=
  match n with
  | .text _ => false
  | .elem t _ _ _ => t == "p"

/-- Code-bearing elements: `pre`, `code`, or a `div` whose class list
contains `code`. -/
def isCodeEl (n : Node) : Bool :=
  match n with
  | .text _ => false
  | .elem t c _ _ => t == "pre" || t == "code" || (t == "div" && c.contains "code")

/-- List elements (`ul`, `ol`). -/
def isListEl (n : Node) : Bool :=
  match n with
  | .text _ => false
  | .elem t _ _ _ => t == "ul" || t == "ol"

/-- The markdown hash prefix for a source heading: level is the source digit
plus one (`'#' * (int(element.name[1]) + 1)`). -/
def headingHashes (t : String) : String :=
  if t == "h2" then "###" else if t == "h3" then "####" else "#####"

/-- The fragment emitted for a heading element. -/
def headingFrag (e : Node) : String :=
  "\n" ++ headingHashes ((tagOf e).getD "") ++ " " ++ getTextStrip e ++ "\n"

/-- The fragment emitted for a non-empty paragraph. -/
def paraFrag (e : Node) : String := "\n" ++ getTextStrip e ++ "\n"

/-- The fragments emitted for a list element: a blank line, then one bullet
per `li` descendant. -/
def listFrags (e : Node) : List String :=
  "\n" :: (findAllTag e "li").map (fun li => "- " ++ getTextStrip li ++ "\n")

/-- Language detection from the class list: the first class containing the
substring `language-`, with every occurrence of `language-` removed. -/
def detectLang (e : Node) : Option String :=
  match (classesOf e).filter (fun c => containsChars c.data "language-".data) with
  | [] => none
  | c :: _ => some (String.mk (removeAllChars c.data "language-".data))

/-- One iteration of the element loop of `extract_article_content`,
translated branch by branch. -/
def stepEl (s : FmtState) (e : Node) : FmtState :=
  if isHeadingEl e then
    let s1 := flushAcc s
    { s1 with out := s1.out ++ [headingFrag e] }
  else if isParaEl e then
    let s1 := flushAcc s
    if getTextStrip e ≠ "" then { s1 with out := s1.out ++ [paraFrag e] } else s1
  else if isCodeEl e then
    let s1 := if s.inCode then s else { s with inCode := true, language := detectLang e }
    if pyStrip (getText e) ≠ "" then { s1 with codeBlock := s1.codeBlock ++ [getText e] }
    else s1
  else if isListEl e then
    let s1 := flushAcc s
    { s1 with out := s1.out ++ listFrags e }
  else s

/-- Initial accumulator state (`in_code_block = False`, empty buffer,
no language, no output). -/
def initFmt : FmtState :=
  { inCode := false, codeBlock := [], language := none, out := [], flushes := 0 }

/-- Run the element loop over a stream and perform the final flush. -/
def runSt (elems : List Node) : FmtState :=
  flushAcc (elems.foldl stepEl initFmt)

/-- The tag kinds enumerated by the formatter's `find_all`. -/
def fmtTags : List String := ["p", "h2", "h3", "h4", "pre", "code", "ul", "ol", "div"]

/-- The enumerated element stream of a main-content region. -/
def formatterStream (main : Node) : List Node := findAllTags fmtTags main

/-- The ordered markdown fragments produced for a main-content region. -/
def extractFragments (main : Node) : List String :=
  (runSt (formatterStream main)).out

/-- The main article container: the first `article` element, else the first
`div` carrying one of the known container classes. -/
def findMainContent (soup : Node) : Option Node :=
  match findFirst soup (isTagB "article") with
  | some a => some a
  | none =>
      findFirst soup (fun n =>
        isTagB "div" n && (classesOf n).any (fun c => containerClasses.contains c))

/-- The result record of `extract_article_content`. -/
structure ArticleResult where
  title : String
  content : String
deriving DecidableEq

/-- The article title: the stripped text of the first `h1`, else empty. -/
def articleTitleOf (soup : Node) : String :=
  match findFirst soup (isTagB "h1") with
  | some h => getTextStrip h
  | none => ""

/-- `extract_article_content`: `None` on empty input, otherwise a record with
the title and the newline-joined fragments (empty content when no main
container is found).  `parse` stands for the external HTML parser. -/
def extractArticleContent (parse : String → Node) (html : String) : Option ArticleResult :=
  if html = "" then none
  else
    let soup := parse html
    some { title := articleTitleOf soup,
           content := String.intercalate "\n"
             (match findMainContent soup with
              | some m => extractFragments m
              | none => []) }

/-! ## Orchestrator (`scrape_from_url`) -/

/-- The topic-page title: the stripped text of the first `h1`, defaulting to
"GeeksForGeeks Guide" when no `h1` exists. -/
def mainTitleOf (soup : Node) : String :=
  match findFirst soup (isTagB "h1") with
  | some h => getTextStrip h
  | none => "GeeksForGeeks Guide"

/-- The fragments appended for one `li` of a section's list: nothing when the
item holds no anchor or no non-empty href; otherwise the article sub-heading,
the article content when the fetch succeeds and extraction yields a record,
and the separator.  `fetch` and `resolve` stand for the HTTP collaborator and
`urljoin(base_url, href)`. -/
def liFrags (fetch : String → Option String) (parse : String → Node)
    (resolve : String → String) (li : Node) : List String :=
  match findFirst li (isTagB "a") with
  | none => []
  | some link =>
    match hrefOf link with
    | none => []
    | some h =>
      if h = "" then []
      else
        ("\n### " ++ getTextStrip link ++ "\n") ::
          ((match fetch (resolve h) with
            | none => []
            | some ah =>
              if ah = "" then []
              else
                match extractArticleContent parse ah with
                | some r => [r.content]
                | none => []) ++ ["\n---\n"])

/-- The fragments appended for one section heading found inside the topic
container: skipped when the stripped title is shorter than 2 characters,
otherwise the section heading followed by the fragments of every `li` of the
next `ul` after the heading (in whole-document order). -/
def sectionFrags (fetch : String → Option String) (parse : String → Node)
    (resolve : String → String) (soup header : Node) : List String :=
  let t := getTextStrip header
  if t.length < 2 then []
  else
    ("\n## " ++ t ++ "\n") ::
      (match findNextTag soup header "ul" with
       | none => []
       | some ul => ((findAllTag ul "li").map (liFrags fetch parse resolve)).flatten)

/-- `scrape_from_url`: fetch the topic page, extract the title, locate the
topic section, and build the markdown fragment list; `none` when the fetch
fails, the page is empty, or no topic section is found. -/
def scrapeFromUrl (fetch : String → Option String) (parse : String → Node)
    (resolve : String → String) (url : String) : Option (List String) :=
  match fetch url with
  | none => none
  | some html =>
    if html = "" then none
    else
      let soup := parse html
      match findTopicSection soup with
      | none => none
      | some sec =>
          some (("# " ++ mainTitleOf soup ++ "\n") ::
            ((findAllTags ["h2", "h3"] sec).map
              (sectionFrags fetch parse resolve soup)).flatten)

/-! ## `main`: output file naming -/

/-- The hardcoded list of topic URLs of `main()`. -/
def topicUrls : List String :=
  ["https://www.geeksforgeeks.org/greedy-algorithms/",
   "https://www.geeksforgeeks.org/dynamic-programming/",
   "https://www.geeksforgeeks.org/graph-data-structure-and-algorithms/",
   "https://www.geeksforgeeks.org/pattern-searching/",
   "https://www.geeksforgeeks.org/branch-and-bound-algorithm/",
   "https://www.geeksforgeeks.org/geometric-algorithms/",
   "https://www.geeksforgeeks.org/randomized-algorithms/"]

/-- `main`'s file name derivation: the last `/`-separated piece of the URL,
or the second-to-last when the URL ends with `/`, plus the `.md` suffix. -/
def filenameFor (url : String) : String :=
  (if endsWithSlash url then ((splitChar url '/').dropLast).getLastD ""
   else (splitChar url '/').getLastD "") ++ ".md"

/-- The spec's wording for the name stem: the final non-empty `/`-separated
segment of the URL. -/
def finalNonEmptySegment (url : String) : String :=
  ((splitChar url '/').filter (fun s => s ≠ "")).getLastD ""

/-! ## Specification-side reference definitions

These restate, in the claims' own vocabulary, what the Formatter's code-run
handling is asserted to produce; the theorems compare them with the
translated code above. -/

/-- The fence the claims predict for one maximal code run: body is the joined
raw texts, the tag is the language detected on the run's first element. -/
def codeRunFence (run : List Node) : String :=
  fenceStr (match run with | [] => none | e :: _ => detectLang e)
    (run.map getText)

/-- The fragments a single non-code element contributes, matching the
dispatch of the element loop. -/
def elemFrags (e : Node) : List String :=
  if isHeadingEl e then [headingFrag e]
  else if isParaEl e then (if getTextStrip e ≠ "" then [paraFrag e] else [])
  else if isListEl e then listFrags e
  else []

theorem dropWhile_length_le {α : Type} (p : α → Bool) :
    (l : List α) → (l.dropWhile p).length ≤ l.length
  | [] => Nat.le_refl _
  | a :: l => by
      rw [List.dropWhile_cons]
      split
      · exact Nat.le_succ_of_le (dropWhile_length_le p l)
      · exact Nat.le_refl _

/-- Auxiliary for `specFormat`: `run` is the (possibly empty) code run
collected so far. -/
def specFormatAux : List Node → List Node → List String
  | run, [] => if run.isEmpty then [] else [codeRunFence run]
  | run, e :: rest =>
    if isCodeEl e then specFormatAux (run ++ [e]) rest
    else
      (if run.isEmpty then [] else [codeRunFence run]) ++ elemFrags e
        ++ specFormatAux [] rest

/-- Run-structured reference output: each maximal run of code elements
contributes exactly one fence, every other element its own fragments, in
stream order. -/
def specFormat (l : List Node) : List String := specFormatAux [] l

/-- Auxiliary for `numRuns`: `prev` records whether the previous element was
code-bearing. -/
def numRunsAux : Bool → List Node → Nat
  | _, [] => 0
  | prev, e :: rest =>
    (if isCodeEl e && !prev then 1 else 0) + numRunsAux (isCodeEl e) rest

/-- The number of maximal contiguous runs of code elements in a stream. -/
def numRuns (l : List Node) : Nat := numRunsAux false l

/-! ## Helper lemmas about element classification and the element loop -/

theorem headEl_excl {e : Node} (h : isHeadingEl e = true) :
    isParaEl e = false ∧ isCodeEl e = false ∧ isListEl e = false := by
  cases e with
  | text s => exact absurd h (by simp [isHeadingEl])
  | elem t c hr ch =>
    simp only [isHeadingEl, Bool.or_eq_true, beq_iff_eq] at h
    rcases h with (h | h) | h <;> subst h <;> simp [isParaEl, isCodeEl, isListEl]

theorem paraEl_excl {e : Node} (h : isParaEl e = true) :
    isHeadingEl e = false ∧ isCodeEl e = false ∧ isListEl e = false := by
  cases e with
  | text s => exact absurd h (by simp [isParaEl])
  | elem t c hr ch =>
    simp only [isParaEl, beq_iff_eq] at h
    subst h
    simp [isHeadingEl, isCodeEl, isListEl]

theorem codeEl_excl {e : Node} (h : isCodeEl e = true) :
    isHeadingEl e = false ∧ isParaEl e = false ∧ isListEl e = false := by
  cases e with
  | text s => exact absurd h (by simp [isCodeEl])
  | elem t c hr ch =>
    simp only [isCodeEl, Bool.or_eq_true, Bool.and_eq_true, beq_iff_eq] at h
    rcases h with (h | h) | ⟨h, _⟩ <;> subst h <;>
      simp [isHeadingEl, isParaEl, isListEl]

theorem listEl_excl {e : Node} (h : isListEl e = true) :
    isHeadingEl e = false ∧ isParaEl e = false ∧ isCodeEl e = false := by
  cases e with
  | text s => exact absurd h (by simp [isListEl])
  | elem t c hr ch =>
    simp only [isListEl, Bool.or_eq_true, beq_iff_eq] at h
    rcases h with h | h <;> subst h <;> simp [isHeadingEl, isParaEl, isCodeEl]

theorem flushAcc_closed {s : FmtState} (h : s.inCode = false) : flushAcc s = s := by
  simp [flushAcc, h]

theorem flushAcc_nilbuf {s : FmtState} (h : s.codeBlock = []) : flushAcc s = s := by
  simp [flushAcc, h]

theorem flushAcc_fire {s : FmtState} (h1 : s.inCode = true) (h2 : s.codeBlock ≠ []) :
    flushAcc s =
      { inCode := false, codeBlock := [], language := s.language,
        out := s.out ++ [fenceStr s.language s.codeBlock],
        flushes := s.flushes + 1 } := by
  simp [flushAcc, h1, h2]

theorem stepEl_heading (s : FmtState) {e : Node} (h : isHeadingEl e = true) :
    stepEl s e = { flushAcc s with out := (flushAcc s).out ++ [headingFrag e] } := by
  simp [stepEl, h]

theorem stepEl_para (s : FmtState) {e : Node} (h : isParaEl e = true) :
    stepEl s e =
      (if getTextStrip e ≠ "" then
        { flushAcc s with out := (flushAcc s).out ++ [paraFrag e] }
       else flushAcc s) := by
  simp only [stepEl, (paraEl_excl h).1, h, Bool.false_eq_true, if_false, if_true]

theorem stepEl_code (s : FmtState) {e : Node} (h : isCodeEl e = true) :
    stepEl s e =
      (let s1 := if s.inCode then s else { s with inCode := true, language := detectLang e }
       if pyStrip (getText e) ≠ "" then { s1 with codeBlock := s1.codeBlock ++ [getText e] }
       else s1) := by
  simp only [stepEl, (codeEl_excl h).1, (codeEl_excl h).2.1, h,
    Bool.false_eq_true, if_false, if_true]

theorem stepEl_code_closed (s : FmtState) {e : Node} (hc : isCodeEl e = true)
    (h1 : s.inCode = false) (ht : pyStrip (getText e) ≠ "") :
    stepEl s e = { s with inCode := true, language := detectLang e, codeBlock := s.codeBlock ++ [getText e] } := by
  simp [stepEl, (codeEl_excl hc).1, (codeEl_excl hc).2.1, hc, h1, ht]

theorem stepEl_code_open (s : FmtState) {e : Node} (hc : isCodeEl e = true)
    (h1 : s.inCode = true) (ht : pyStrip (getText e) ≠ "") :
    stepEl s e = { s with codeBlock := s.codeBlock ++ [getText e] } := by
  simp [stepEl, (codeEl_excl hc).1, (codeEl_excl hc).2.1, hc, h1, ht]

theorem stepEl_code_blank (s : FmtState) {e : Node} (hc : isCodeEl e = true)
    (ht : pyStrip (getText e) = "") :
    stepEl s e =
      (if s.inCode then s else { s with inCode := true, language := detectLang e }) := by
  simp [stepEl, (codeEl_excl hc).1, (codeEl_excl hc).2.1, hc, ht]

theorem stepEl_list (s : FmtState) {e : Node} (h : isListEl e = true) :
    stepEl s e = { flushAcc s with out := (flushAcc s).out ++ listFrags e } := by
  simp only [stepEl, (listEl_excl h).1, (listEl_excl h).2.1, (listEl_excl h).2.2, h,
    Bool.false_eq_true, if_false, if_true]

theorem specFormat_nil : specFormat [] = [] := rfl

theorem specFormatAux_run :
    (l : List Node) → ∀ run, run ≠ [] →
      specFormatAux run l =
        codeRunFence (run ++ l.takeWhile isCodeEl) :: specFormat (l.dropWhile isCodeEl)
  | [], run, hr => by
    simp [specFormatAux, specFormat, List.isEmpty_iff, hr]
  | e :: rest, run, hr => by
    by_cases hc : isCodeEl e = true
    · rw [show specFormatAux run (e :: rest) = specFormatAux (run ++ [e]) rest by
        simp [specFormatAux, hc]]
      rw [specFormatAux_run rest (run ++ [e]) (by simp)]
      rw [List.takeWhile_cons_of_pos hc, List.dropWhile_cons_of_pos hc]
      simp
    · have hf : isCodeEl e = false := by simpa using hc
      rw [List.takeWhile_cons_of_neg (by simp [hf]), List.dropWhile_cons_of_neg (by simp [hf])]
      simp [specFormatAux, specFormat, hf, List.isEmpty_iff, hr]

theorem specFormat_cons_code {e : Node} (h : isCodeEl e = true) (rest : List Node) :
    specFormat (e :: rest) =
      codeRunFence (e :: rest.takeWhile isCodeEl) :: specFormat (rest.dropWhile isCodeEl) := by
  rw [show specFormat (e :: rest) = specFormatAux [e] rest by
    simp [specFormat, specFormatAux, h]]
  rw [specFormatAux_run rest [e] (by simp)]
  rfl

theorem specFormat_cons_other {e : Node} (h : isCodeEl e = false) (rest : List Node) :
    specFormat (e :: rest) = elemFrags e ++ specFormat rest := by
  simp [specFormat, specFormatAux, h]

theorem numRuns_nil : numRuns [] = 0 := rfl

theorem numRunsAux_true :
    (l : List Node) → numRunsAux true l = numRuns (l.dropWhile isCodeEl)
  | [] => rfl
  | e :: rest => by
    by_cases hc : isCodeEl e = true
    · rw [List.dropWhile_cons_of_pos hc]
      simp [numRunsAux, hc, numRunsAux_true rest]
    · rw [List.dropWhile_cons_of_neg (by simp [hc])]
      simp [numRunsAux, numRuns, hc]

theorem numRuns_cons_code {e : Node} (h : isCodeEl e = true) (rest : List Node) :
    numRuns (e :: rest) = numRuns (rest.dropWhile isCodeEl) + 1 := by
  simp [numRuns, numRunsAux, h, numRunsAux_true rest]
  omega

theorem numRuns_cons_other {e : Node} (h : isCodeEl e = false) (rest : List Node) :
    numRuns (e :: rest) = numRuns rest := by
  simp [numRuns, numRunsAux, h]

theorem elemFrags_heading {e : Node} (h : isHeadingEl e = true) :
    elemFrags e = [headingFrag e] := by
  simp [elemFrags, h]

theorem elemFrags_para {e : Node} (h : isParaEl e = true) :
    elemFrags e = if getTextStrip e ≠ "" then [paraFrag e] else [] := by
  simp [elemFrags, (paraEl_excl h).1, h]

theorem elemFrags_list {e : Node} (h : isListEl e = true) :
    elemFrags e = listFrags e := by
  simp [elemFrags, (listEl_excl h).1, (listEl_excl h).2.1, h]

/-- Every element of the stream is one the dispatch handles: heading,
paragraph, code-bearing, or list (this excludes the pass-through `div`s
that carry no `code` class). -/
def goodStream (elems : List Node) : Prop :=
  ∀ e ∈ elems, (isHeadingEl e || isParaEl e || isCodeEl e || isListEl e) = true

/-- Every code-bearing element of the stream has raw text that is non-empty
after trimming. -/
def nonBlankCodes (elems : List Node) : Prop :=
  ∀ e ∈ elems, isCodeEl e = true → pyStrip (getText e) ≠ ""

theorem runAux_spec :
    ∀ (elems : List Node), goodStream elems → nonBlankCodes elems →
    (∀ s : FmtState, s.inCode = false → s.codeBlock = [] →
      (flushAcc (elems.foldl stepEl s)).out = s.out ++ specFormat elems ∧
      (flushAcc (elems.foldl stepEl s)).flushes = s.flushes + numRuns elems) ∧
    (∀ s : FmtState, s.inCode = true → s.codeBlock ≠ [] →
      (flushAcc (elems.foldl stepEl s)).out =
        s.out ++ fenceStr s.language (s.codeBlock ++ (elems.takeWhile isCodeEl).map getText)
          :: specFormat (elems.dropWhile isCodeEl) ∧
      (flushAcc (elems.foldl stepEl s)).flushes =
        s.flushes + 1 + numRuns (elems.dropWhile isCodeEl)) := by
  intro elems
  induction elems with
  | nil =>
    intro _ _
    constructor
    · intro s hs1 hs2
      rw [List.foldl_nil, flushAcc_closed hs1, specFormat_nil, numRuns_nil]
      exact ⟨by simp, rfl⟩
    · intro s hs1 hs2
      rw [List.foldl_nil, flushAcc_fire hs1 hs2]
      simp [specFormat_nil, numRuns_nil]
  | cons e rest ih =>
    intro hg hn
    have hgr : goodStream rest := fun x hx => hg x (List.mem_cons_of_mem _ hx)
    have hnr : nonBlankCodes rest := fun x hx => hn x (List.mem_cons_of_mem _ hx)
    have ihc := (ih hgr hnr).1
    have iho := (ih hgr hnr).2
    have hge := hg e (List.mem_cons_self _ _)
    simp only [Bool.or_eq_true] at hge
    rcases hge with ((hh | hp) | hc) | hl
    · -- heading element
      constructor
      · intro s hs1 hs2
        rw [List.foldl_cons, stepEl_heading s hh, flushAcc_closed hs1]
        obtain ⟨ho, hf⟩ := ihc { s with out := s.out ++ [headingFrag e] } hs1 hs2
        refine ⟨?_, ?_⟩
        · rw [ho, specFormat_cons_other (headEl_excl hh).2.1, elemFrags_heading hh]
          simp
        · rw [hf, numRuns_cons_other (headEl_excl hh).2.1]
      · intro s hs1 hs2
        rw [List.foldl_cons, stepEl_heading s hh, flushAcc_fire hs1 hs2]
        obtain ⟨ho, hf⟩ := ihc
          { inCode := false, codeBlock := [], language := s.language,
            out := s.out ++ [fenceStr s.language s.codeBlock] ++ [headingFrag e],
            flushes := s.flushes + 1 } rfl rfl
        refine ⟨?_, ?_⟩
        · rw [ho]
          rw [List.takeWhile_cons_of_neg (by simp [(headEl_excl hh).2.1]),
            List.dropWhile_cons_of_neg (by simp [(headEl_excl hh).2.1]),
            specFormat_cons_other (headEl_excl hh).2.1, elemFrags_heading hh]
          simp
        · rw [hf]
          rw [List.dropWhile_cons_of_neg (by simp [(headEl_excl hh).2.1]),
            numRuns_cons_other (headEl_excl hh).2.1]
    · -- paragraph element
      constructor
      · intro s hs1 hs2
        rw [List.foldl_cons, stepEl_para s hp, flushAcc_closed hs1]
        by_cases ht : getTextStrip e ≠ ""
        · rw [if_pos ht]
          obtain ⟨ho, hf⟩ := ihc { s with out := s.out ++ [paraFrag e] } hs1 hs2
          refine ⟨?_, ?_⟩
          · rw [ho, specFormat_cons_other (paraEl_excl hp).2.1, elemFrags_para hp,
              if_pos ht]
            simp
          · rw [hf, numRuns_cons_other (paraEl_excl hp).2.1]
        · rw [if_neg ht]
          obtain ⟨ho, hf⟩ := ihc s hs1 hs2
          refine ⟨?_, ?_⟩
          · rw [ho, specFormat_cons_other (paraEl_excl hp).2.1, elemFrags_para hp,
              if_neg ht]
            simp
          · rw [hf, numRuns_cons_other (paraEl_excl hp).2.1]
      · intro s hs1 hs2
        rw [List.foldl_cons, stepEl_para s hp, flushAcc_fire hs1 hs2]
        by_cases ht : getTextStrip e ≠ ""
        · rw [if_pos ht]
          obtain ⟨ho, hf⟩ := ihc
            { inCode := false, codeBlock := [], language := s.language,
              out := s.out ++ [fenceStr s.language s.codeBlock] ++ [paraFrag e],
              flushes := s.flushes + 1 } rfl rfl
          refine ⟨?_, ?_⟩
          · rw [ho]
            rw [List.takeWhile_cons_of_neg (by simp [(paraEl_excl hp).2.1]),
              List.dropWhile_cons_of_neg (by simp [(paraEl_excl hp).2.1]),
              specFormat_cons_other (paraEl_excl hp).2.1, elemFrags_para hp, if_pos ht]
            simp
          · rw [hf]
            rw [List.dropWhile_cons_of_neg (by simp [(paraEl_excl hp).2.1]),
              numRuns_cons_other (paraEl_excl hp).2.1]
        · rw [if_neg ht]
          obtain ⟨ho, hf⟩ := ihc
            { inCode := false, codeBlock := [], language := s.language,
              out := s.out ++ [fenceStr s.language s.codeBlock],
              flushes := s.flushes + 1 } rfl rfl
          refine ⟨?_, ?_⟩
          · rw [ho]
            rw [List.takeWhile_cons_of_neg (by simp [(paraEl_excl hp).2.1]),
              List.dropWhile_cons_of_neg (by simp [(paraEl_excl hp).2.1]),
              specFormat_cons_other (paraEl_excl hp).2.1, elemFrags_para hp, if_neg ht]
            simp
          · rw [hf]
            rw [List.dropWhile_cons_of_neg (by simp [(paraEl_excl hp).2.1]),
              numRuns_cons_other (paraEl_excl hp).2.1]
    · -- code-bearing element
      have hblank := hn e (List.mem_cons_self _ _) hc
      constructor
      · intro s hs1 hs2
        rw [List.foldl_cons, stepEl_code_closed s hc hs1 hblank]
        obtain ⟨ho, hf⟩ := iho
          { s with inCode := true, language := detectLang e,
                   codeBlock := s.codeBlock ++ [getText e] } rfl (by simp)
        refine ⟨?_, ?_⟩
        · rw [ho, specFormat_cons_code hc]
          simp [hs2, codeRunFence, fenceStr]
        · rw [hf, numRuns_cons_code hc]
          show s.flushes + 1 + numRuns (List.dropWhile isCodeEl rest) =
            s.flushes + (numRuns (List.dropWhile isCodeEl rest) + 1)
          omega
      · intro s hs1 hs2
        rw [List.foldl_cons, stepEl_code_open s hc hs1 hblank]
        obtain ⟨ho, hf⟩ := iho
          { s with codeBlock := s.codeBlock ++ [getText e] } hs1 (by simp)
        refine ⟨?_, ?_⟩
        · rw [ho]
          rw [List.takeWhile_cons_of_pos (by simp [hc]),
            List.dropWhile_cons_of_pos (by simp [hc])]
          simp
        · rw [hf]
          rw [List.dropWhile_cons_of_pos (by simp [hc])]
    · -- list element
      constructor
      · intro s hs1 hs2
        rw [List.foldl_cons, stepEl_list s hl, flushAcc_closed hs1]
        obtain ⟨ho, hf⟩ := ihc { s with out := s.out ++ listFrags e } hs1 hs2
        refine ⟨?_, ?_⟩
        · rw [ho, specFormat_cons_other (listEl_excl hl).2.2, elemFrags_list hl]
          simp
        · rw [hf, numRuns_cons_other (listEl_excl hl).2.2]
      · intro s hs1 hs2
        rw [List.foldl_cons, stepEl_list s hl, flushAcc_fire hs1 hs2]
        obtain ⟨ho, hf⟩ := ihc
          { inCode := false, codeBlock := [], language := s.language,
            out := s.out ++ [fenceStr s.language s.codeBlock] ++ listFrags e,
            flushes := s.flushes + 1 } rfl rfl
        refine ⟨?_, ?_⟩
        · rw [ho]
          rw [List.takeWhile_cons_of_neg (by simp [(listEl_excl hl).2.2]),
            List.dropWhile_cons_of_neg (by simp [(listEl_excl hl).2.2]),
            specFormat_cons_other (listEl_excl hl).2.2, elemFrags_list hl]
          simp
        · rw [hf]
          rw [List.dropWhile_cons_of_neg (by simp [(listEl_excl hl).2.2]),
            numRuns_cons_other (listEl_excl hl).2.2]

instance (l : List Node) : Decidable (goodStream l) := by
  unfold goodStream; infer_instance

instance (l : List Node) : Decidable (nonBlankCodes l) := by
  unfold nonBlankCodes; infer_instance

theorem runSt_out_spec (elems : List Node) (hg : goodStream elems)
    (hn : nonBlankCodes elems) : (runSt elems).out = specFormat elems := by
  have h := ((runAux_spec elems hg hn).1 initFmt rfl rfl).1
  simpa [runSt, initFmt] using h

theorem runSt_flushes_spec (elems : List Node) (hg : goodStream elems)
    (hn : nonBlankCodes elems) : (runSt elems).flushes = numRuns elems := by
  have h := ((runAux_spec elems hg hn).1 initFmt rfl rfl).2
  simpa [runSt, initFmt] using h

/-- A paragraph element holding one text node. -/
def pEl (s : String) : Node := .elem "p" [] none [.text s]

/-- A `pre` element with the given class list holding one text node. -/
def preEl (cls : List String) (s : String) : Node := .elem "pre" cls none [.text s]

/-- A `div` element with no class, as enumerated by the element loop. -/
def divPlain : Node := .elem "div" [] none []

/-- Element stream refuting C1 as stated: two maximal code runs (separated by
a plain `div`, which the loop ignores without flushing), the second carrying
a `language-python` class. -/
def exC1 : List Node :=
  [preEl [] "x", divPlain, preEl ["language-python"] "y", pEl "."]

/-- Element stream refuting C2 as stated: one code run whose only text is
blank, followed by a paragraph. -/
def exC2 : List Node := [preEl [] "  ", pEl "a"]

/-- Element stream refuting C5 as stated: one code element with a detected
language whose text is blank. -/
def exC5 : List Node := [preEl ["language-python"] "   "]

theorem blankCode_aux :
    ∀ (elems : List Node) (s : FmtState),
      (∀ e ∈ elems, isCodeEl e = true) → (∀ e ∈ elems, pyStrip (getText e) = "") →
      s.codeBlock = [] →
      (elems.foldl stepEl s).codeBlock = [] ∧ (elems.foldl stepEl s).out = s.out ∧
        (elems.foldl stepEl s).flushes = s.flushes := by
  intro elems
  induction elems with
  | nil => exact fun s _ _ hb => ⟨hb, rfl, rfl⟩
  | cons e rest ih =>
    intro s hc hb hsb
    rw [List.foldl_cons,
      stepEl_code_blank s (hc e (List.mem_cons_self _ _)) (hb e (List.mem_cons_self _ _))]
    by_cases hin : s.inCode
    · rw [if_pos hin]
      exact ih s (fun x hx => hc x (List.mem_cons_of_mem _ hx))
        (fun x hx => hb x (List.mem_cons_of_mem _ hx)) hsb
    · rw [if_neg hin]
      exact ih _ (fun x hx => hc x (List.mem_cons_of_mem _ hx))
        (fun x hx => hb x (List.mem_cons_of_mem _ hx)) hsb

/-- Claim C1 (amended): in an element stream with no pass-through `div` and in
which every code-bearing element's raw text is non-blank, the Formatter's
output equals the run-structured reference: each maximal run of consecutive
code-bearing elements yields exactly one fenced fragment whose body is the
concatenation of the run's raw texts in order and whose info tag is the
language detected on the run's first element (untagged when that first
element carries none); all other elements contribute their own fragments in
order. -/
theorem C1_code_runs_amended (elems : List Node) (hg : goodStream elems)
    (hn : nonBlankCodes elems) : (runSt elems).out = specFormat elems :=
  runSt_out_spec elems hg hn

/-- Claim C1 witness: a concrete stream with one two-element code run tagged
from its first element, closed by a paragraph. -/
theorem C1_witness :
    goodStream [preEl ["language-python"] "a", preEl [] "b", pEl "x"] ∧
    nonBlankCodes [preEl ["language-python"] "a", preEl [] "b", pEl "x"] ∧
    (runSt [preEl ["language-python"] "a", preEl [] "b", pEl "x"]).out =
      specFormat [preEl ["language-python"] "a", preEl [] "b", pEl "x"] :=
  ⟨by decide, by decide, C1_code_runs_amended _ (by decide) (by decide)⟩

/-- Claim C1 counterexample: the stream `pre "x"; plain div; pre[class
language-python] "y"; p "."` has two maximal code runs, so the claim as
stated demands two fences, the second tagged `python` with body `y`; the
code emits a single untagged fence `xy` (the plain `div` does not flush,
and the language of the second run's first element is ignored because the
accumulator is already open). -/
theorem C1_counterexample :
    (runSt exC1).out = ["\n```\nxy\n```\n", "\n.\n"] ∧
    numRuns exC1 = 2 ∧
    "\n```python\ny\n```\n" ∉ (runSt exC1).out := by decide

/-- Claim C2 (amended): a heading, paragraph or list element dispatched while
the accumulator is open with a non-empty buffer triggers exactly one flush,
whose fence is emitted before that element's own fragments; and over any
stream without pass-through `div`s in which every code element's text is
non-blank, the number of flushes equals the number of maximal contiguous
code-element runs. -/
theorem C2_flush_discipline :
    (∀ (s : FmtState) (e : Node), s.inCode = true → s.codeBlock ≠ [] →
      (isHeadingEl e || isParaEl e || isListEl e) = true →
      (stepEl s e).out = s.out ++ fenceStr s.language s.codeBlock :: elemFrags e ∧
      (stepEl s e).flushes = s.flushes + 1) ∧
    (∀ elems : List Node, goodStream elems → nonBlankCodes elems →
      (runSt elems).flushes = numRuns elems) := by
  constructor
  · intro s e h1 h2 h3
    simp only [Bool.or_eq_true] at h3
    rcases h3 with (hh | hp) | hl
    · rw [stepEl_heading s hh, flushAcc_fire h1 h2, elemFrags_heading hh]
      exact ⟨by simp, rfl⟩
    · rw [stepEl_para s hp, flushAcc_fire h1 h2, elemFrags_para hp]
      by_cases ht : getTextStrip e ≠ ""
      · rw [if_pos ht, if_pos ht]
        exact ⟨by simp, rfl⟩
      · rw [if_neg ht, if_neg ht]
        exact ⟨by simp, rfl⟩
    · rw [stepEl_list s hl, flushAcc_fire h1 h2, elemFrags_list hl]
      exact ⟨by simp, rfl⟩
  · exact runSt_flushes_spec

/-- Claim C2 witness: the local flush shape at a concrete open state, and the
flush count on a concrete one-run stream. -/
theorem C2_witness :
    (stepEl { inCode := true, codeBlock := ["x"], language := none, out := [], flushes := 0 }
        (pEl "a")).out = [] ++ fenceStr none ["x"] :: elemFrags (pEl "a") ∧
    (runSt [preEl [] "c", pEl "d"]).flushes = numRuns [preEl [] "c", pEl "d"] :=
  ⟨(C2_flush_discipline.1 _ _ rfl (by decide) (by decide)).1,
   C2_flush_discipline.2 _ (by decide) (by decide)⟩

/-- Claim C2 counterexample: in the stream `pre "  "; p "a"` the accumulator
is open when the paragraph is dispatched and the stream has one maximal code
run, yet no flush ever fires (the buffer stayed empty, so the guard
`in_code_block and current_code_block` fails) and the output holds no
fence. -/
theorem C2_counterexample :
    numRuns exC2 = 1 ∧ (runSt exC2).flushes = 0 ∧
    (List.foldl stepEl initFmt [preEl [] "  "]).inCode = true ∧
    (runSt exC2).out = ["\na\n"] := by decide

/-- Claim C5 (amended): a run of code-bearing elements all of whose raw texts
are blank after trimming produces no fenced fragment at all — the detected
language is discarded rather than emitted on an empty fence, and no flush
ever fires for such a stream. -/
theorem C5_blank_run_amended (elems : List Node)
    (hc : ∀ e ∈ elems, isCodeEl e = true)
    (hb : ∀ e ∈ elems, pyStrip (getText e) = "") :
    (runSt elems).out = [] ∧ (runSt elems).flushes = 0 := by
  obtain ⟨h1, h2, h3⟩ := blankCode_aux elems initFmt hc hb rfl
  rw [runSt, flushAcc_nilbuf h1]
  exact ⟨h2, h3⟩

/-- Claim C5 witness: a single blank `pre` carrying a language class yields no
output and no flush. -/
theorem C5_witness :
    (runSt [preEl ["language-java"] " "]).out = [] ∧
    (runSt [preEl ["language-java"] " "]).flushes = 0 :=
  C5_blank_run_amended _ (by decide) (by decide)

/-- Claim C5 counterexample: a blank `pre` with class `language-python` is
detected as python, yet the Formatter emits no fragment at all — in
particular no empty fence carrying the tag. -/
theorem C5_counterexample :
    (runSt exC5).out = [] ∧
    detectLang (preEl ["language-python"] "   ") = some "python" := by decide

/-- An anchor element with the given href. -/
def aEl (h : String) : Node := .elem "a" [] (some h) [.text "L"]

/-- A list item wrapping one anchor. -/
def liA (h : String) : Node := .elem "li" [] none [aEl h]

/-- A `ul` holding three linked items. -/
def exUl3 : Node := .elem "ul" [] none [liA "/x", liA "/y", liA "/z"]

/-- A second `ul` holding three linked items. -/
def exUl3b : Node := .elem "ul" [] none [liA "/u", liA "/v", liA "/w"]

/-- Heading for the Locator witness scenario. -/
def exH2 : Node := .elem "h2" [] none [.text "Intro"]

/-- Wrapper div around the witness heading and list. -/
def exSecDiv : Node := .elem "div" ["wrap"] none [exH2, exUl3]

/-- The spec's scenario document: one `h2` followed by a three-link list. -/
def exDocW : Node := .elem "root" [] none [exSecDiv]

/-- An `h3` that comes first in document order in the C3 counterexample. -/
def exH3 : Node := .elem "h3" [] none [.text "First"]

/-- An `h2` that comes second in document order in the C3 counterexample. -/
def exH2b : Node := .elem "h2" [] none [.text "Second"]

/-- Parent of the early qualifying `h3`. -/
def exDivA : Node := .elem "div" ["A"] none [exH3, exUl3]

/-- Parent of the later qualifying `h2`. -/
def exDivB : Node := .elem "div" ["B"] none [exH2b, exUl3b]

/-- Document where a qualifying `h3` precedes a qualifying `h2`. -/
def exDocC3 : Node := .elem "root" [] none [exDivA, exDivB]

/-- Claim C3 (amended): the first pattern scans all `h2` headings in document
order and then all `h3` headings; whenever that grouped scan yields a
qualifying heading (next list holds at least 3 anchors), the Locator returns
that heading's parent, regardless of what the dense-list or known-container
heuristics would match — the qualifying condition and the heading's
membership in the corresponding tag scan hold at the returned pair. -/
theorem C3_header_priority_amended (doc h p : Node)
    (hq : firstQualifying doc = some (h, p)) :
    findTopicSection doc = some p ∧ qualifiesHeader doc h = true ∧
    ((h, p) ∈ findAllTagP doc "h2" ∨ (h, p) ∈ findAllTagP doc "h3") := by
  have key : qualifiesHeader doc h = true ∧
      ((h, p) ∈ findAllTagP doc "h2" ∨ (h, p) ∈ findAllTagP doc "h3") := by
    unfold firstQualifying at hq
    cases hfind : (findAllTagP doc "h2").find? (fun pr => qualifiesHeader doc pr.1) with
    | some pr =>
      rw [hfind] at hq
      simp only [Option.some.injEq] at hq
      subst hq
      exact ⟨by simpa using List.find?_some hfind,
        Or.inl (List.mem_of_find?_eq_some hfind)⟩
    | none =>
      rw [hfind] at hq
      simp only at hq
      exact ⟨by simpa using List.find?_some hq,
        Or.inr (List.mem_of_find?_eq_some hq)⟩
  exact ⟨by simp [findTopicSection, hq], key.1, key.2⟩

/-- Claim C3 witness: the spec's own scenario — an `h2` followed by a
three-link list — where the Locator returns the heading's parent. -/
theorem C3_witness :
    firstQualifying exDocW = some (exH2, exSecDiv) ∧
    findTopicSection exDocW = some exSecDiv ∧
    qualifiesHeader exDocW exH2 = true :=
  ⟨by decide, (C3_header_priority_amended exDocW exH2 exSecDiv (by decide)).1,
   (C3_header_priority_amended exDocW exH2 exSecDiv (by decide)).2.1⟩

/-- Claim C3 counterexample: a qualifying `h3` precedes a qualifying `h2` in
document order, yet the Locator returns the `h2`'s parent (`exDivB`), not the
parent of the document-order-first qualifying heading (`exDivA`): the scan is
grouped by tag (`h2` before `h3`), not interleaved in document order. -/
theorem C3_counterexample :
    findTopicSection exDocC3 = some exDivB ∧
    qualifiesHeader exDocC3 exH3 = true ∧
    List.indexOf exH3 (preorder exDocC3) < List.indexOf exH2b (preorder exDocC3) ∧
    exDivA ≠ exDivB := by decide

/-- Claim C4: when no `h2`/`h3` heading qualifies, no `ul` holds five or more
anchors, and every `div` carrying a known container class holds no anchor,
`find_topic_section` returns `None`; the function is total, so no exception
can escape. -/
theorem C4_locator_none (doc : Node)
    (h2f : ∀ pr ∈ findAllTagP doc "h2", qualifiesHeader doc pr.1 = false)
    (h3f : ∀ pr ∈ findAllTagP doc "h3", qualifiesHeader doc pr.1 = false)
    (hul : ∀ pr ∈ findAllTagP doc "ul", countLinksIn pr.1 < 5)
    (hdiv : ∀ d ∈ preorder doc, isTagB "div" d = true →
      ∀ cn ∈ containerClasses, (classesOf d).contains cn = true → findAllTag d "a" = []) :
    findTopicSection doc = none := by
  have hp1 : firstQualifying doc = none := by
    unfold firstQualifying
    rw [List.find?_eq_none.mpr (fun pr hpr => by simp [h2f pr hpr])]
    rw [List.find?_eq_none.mpr (fun pr hpr => by simp [h3f pr hpr])]
  have hp2 : denseListParent doc = none := by
    unfold denseListParent
    rw [List.find?_eq_none.mpr (fun pr hpr => by simp [Nat.not_le.mpr (hul pr hpr)])]
    rfl
  have hp3 : knownContainer doc = none := by
    unfold knownContainer
    refine List.findSome?_eq_none_iff.mpr (fun cn hcn => ?_)
    cases hfd : (preorder doc).find? (fun n => isTagB "div" n && (classesOf n).contains cn) with
    | none => rfl
    | some d =>
      have hmem := List.mem_of_find?_eq_some hfd
      have hprop := List.find?_some hfd
      simp only [Bool.and_eq_true] at hprop
      have hempty : findAllTag d "a" = [] := hdiv d hmem hprop.1 cn hcn hprop.2
      simp [hempty]
  simp [findTopicSection, hp1, hp2, hp3]

/-- Claim C4 witness: a document with a lone short paragraph matches none of
the heuristics and the Locator returns `none`. -/
theorem C4_witness : findTopicSection (Node.elem "root" [] none [pEl "hi"]) = none :=
  C4_locator_none _ (by decide) (by decide) (by decide) (by decide)

/-- A document with no `h1` element. -/
def exDocNoH1 : Node := .elem "root" [] none [pEl "hello"]

/-- An `h1` element with stripped text "Title". -/
def exH1 : Node := .elem "h1" [] none [.text " Title "]

/-- A document whose first `h1` is `exH1`. -/
def exDocH1 : Node := .elem "root" [] none [exH1, pEl "b"]

/-- Claim C6 (amended): the topic-page title defaults to "GeeksForGeeks
Guide" — not "Untitled" — when the parsed page has no `h1`; when an `h1`
exists its stripped text is used; and the orchestrator emits that title as
the level-1 document heading, the first fragment of its output. -/
theorem C6_default_title_amended :
    (∀ soup : Node, findFirst soup (isTagB "h1") = none →
      mainTitleOf soup = "GeeksForGeeks Guide") ∧
    (∀ soup h : Node, findFirst soup (isTagB "h1") = some h →
      mainTitleOf soup = getTextStrip h) ∧
    (∀ (fetch : String → Option String) (parse : String → Node)
        (resolve : String → String) (url html : String) (sec : Node),
      fetch url = some html → html ≠ "" → findTopicSection (parse html) = some sec →
      scrapeFromUrl fetch parse resolve url =
        some (("# " ++ mainTitleOf (parse html) ++ "\n") ::
          ((findAllTags ["h2", "h3"] sec).map
            (sectionFrags fetch parse resolve (parse html))).flatten)) := by
  refine ⟨?_, ?_, ?_⟩
  · intro soup h
    simp [mainTitleOf, h]
  · intro soup h hh
    simp [mainTitleOf, hh]
  · intro fetch parse resolve url html sec hf hne hs
    simp [scrapeFromUrl, hf, hne, hs]

/-- Claim C6 witness: the default title on an `h1`-free page, the stripped
`h1` text otherwise, and the title fragment heading the orchestrator's
output for a concrete page. -/
theorem C6_witness :
    mainTitleOf exDocNoH1 = "GeeksForGeeks Guide" ∧
    mainTitleOf exDocH1 = getTextStrip exH1 ∧
    scrapeFromUrl (fun _ => some "x") (fun _ => exDocW) (fun s => s) "u" =
      some (("# " ++ mainTitleOf exDocW ++ "\n") ::
        ((findAllTags ["h2", "h3"] exSecDiv).map
          (sectionFrags (fun _ => some "x") (fun _ => exDocW) (fun s => s) exDocW)).flatten) :=
  ⟨C6_default_title_amended.1 exDocNoH1 (by decide),
   C6_default_title_amended.2.1 exDocH1 exH1 (by decide),
   C6_default_title_amended.2.2 (fun _ => some "x") (fun _ => exDocW) (fun s => s)
     "u" "x" exSecDiv rfl (by decide) (by decide)⟩

/-- Claim C6 counterexample: on a page without `h1` the code's default title
is "GeeksForGeeks Guide", not the "Untitled" the claim states. -/
theorem C6_counterexample :
    findFirst exDocNoH1 (isTagB "h1") = none ∧
    mainTitleOf exDocNoH1 = "GeeksForGeeks Guide" ∧
    mainTitleOf exDocNoH1 ≠ "Untitled" := by decide

mutual
theorem preorder_segment : (n a : Node) → a ∈ preorder n →
    ∃ l r, preorder n = l ++ a :: (preorder a ++ r)
  | .text _, a, h => by simp [preorder] at h
  | .elem t c hr ch, a, h => preorderList_segment ch a (by simpa [preorder] using h)

theorem preorderList_segment : (cs : List Node) → (a : Node) → a ∈ preorderList cs →
    ∃ l r, preorderList cs = l ++ a :: (preorder a ++ r)
  | [], a, h => by simp [preorderList] at h
  | c :: cs', a, h => by
    rw [preorderList] at h
    rcases List.mem_cons.mp h with heq | h2
    · subst heq
      exact ⟨[], preorderList cs', by rw [preorderList, List.nil_append]⟩
    · rcases List.mem_append.mp h2 with h3 | h3
      · obtain ⟨l, r, hlr⟩ := preorder_segment c a h3
        exact ⟨c :: l, r ++ preorderList cs',
          by rw [preorderList, hlr]; simp [List.append_assoc]⟩
      · obtain ⟨l, r, hlr⟩ := preorderList_segment cs' a h3
        exact ⟨c :: (preorder c ++ l), r,
          by rw [preorderList, hlr]; simp [List.append_assoc]⟩
end

theorem findAllTags_nested (root a b : Node) (tags : List String)
    (ha : a ∈ findAllTags tags root) (hb : b ∈ preorder a)
    (hbt : matchesTags tags b = true) :
    ∃ l m r, findAllTags tags root = l ++ a :: (m ++ b :: r) := by
  have hmem := List.mem_filter.mp ha
  obtain ⟨l0, r0, h0⟩ := preorder_segment root a hmem.1
  have hbf : b ∈ (preorder a).filter (matchesTags tags) :=
    List.mem_filter.mpr ⟨hb, hbt⟩
  obtain ⟨m1, m2, hm⟩ := List.append_of_mem hbf
  refine ⟨l0.filter (matchesTags tags), m1, m2 ++ r0.filter (matchesTags tags), ?_⟩
  rw [findAllTags, h0]
  simp [List.filter_append, List.filter_cons, hmem.2, hm, List.append_assoc]

/-- A `code` element nested inside a `pre`, both enumerated by the loop. -/
def exCode : Node := .elem "code" [] none [.text "x"]

/-- The `pre` ancestor of `exCode`. -/
def exPre : Node := .elem "pre" [] none [exCode]

/-- An article whose main content nests `exCode` inside `exPre`. -/
def exArticle : Node := .elem "article" [] none [exPre]

/-- Claim C9: the element enumeration visits nested matching descendants
independently — whenever a matching element `b` lies strictly inside another
enumerated element `a`, the stream contains `b` again after `a`; concretely,
for the article `article > pre > code("x")` the inner code's text appears
twice, duplicated inside the single emitted fence. -/
theorem C9_nested_enumeration :
    (∀ (root a b : Node) (tags : List String),
      a ∈ findAllTags tags root → b ∈ preorder a → matchesTags tags b = true →
      ∃ l m r, findAllTags tags root = l ++ a :: (m ++ b :: r)) ∧
    extractFragments exArticle = ["\n```\nxx\n```\n"] :=
  ⟨fun root a b tags ha hb hbt => findAllTags_nested root a b tags ha hb hbt,
   by decide⟩

/-- Claim C9 witness: in the concrete article the stream lists the `pre`
first and its nested `code` again after it. -/
theorem C9_witness :
    ∃ l m r, findAllTags fmtTags exArticle = l ++ exPre :: (m ++ exCode :: r) :=
  C9_nested_enumeration.1 exArticle exPre exCode fmtTags (by decide) (by decide) (by decide)

/-- Claim C7: an article anchor whose fetch fails still yields its level-3
sub-heading followed only by the separator (no body fragments); the
surrounding per-item processing is a flat concatenation, so the failing item
leaves every other item's fragments unchanged, and no exception exists (the
embedding is total). -/
theorem C7_fetch_failure_isolated :
    (∀ (fetch : String → Option String) (parse : String → Node)
        (resolve : String → String) (li link : Node) (h : String),
      findFirst li (isTagB "a") = some link → hrefOf link = some h → h ≠ "" →
      fetch (resolve h) = none →
      liFrags fetch parse resolve li = ["\n### " ++ getTextStrip link ++ "\n", "\n---\n"]) ∧
    (∀ (fetch : String → Option String) (parse : String → Node)
        (resolve : String → String) (before after : List Node) (li : Node),
      ((before ++ li :: after).map (liFrags fetch parse resolve)).flatten =
        (before.map (liFrags fetch parse resolve)).flatten
          ++ liFrags fetch parse resolve li
          ++ (after.map (liFrags fetch parse resolve)).flatten) := by
  constructor
  · intro fetch parse resolve li link h hfind hhref hne hfetch
    simp [liFrags, hfind, hhref, hne, hfetch]
  · intro fetch parse resolve before after li
    simp

/-- Claim C7 witness: a concrete list item whose article fetch fails yields
exactly the sub-heading and the separator, amid unchanged neighbours. -/
theorem C7_witness :
    liFrags (fun _ => none) (fun _ => exDocW) (fun s => s) (liA "/x") =
      ["\n### " ++ getTextStrip (aEl "/x") ++ "\n", "\n---\n"] ∧
    (([liA "/a"] ++ liA "/x" :: [liA "/b"]).map
        (liFrags (fun _ => none) (fun _ => exDocW) (fun s => s))).flatten =
      ([liA "/a"].map (liFrags (fun _ => none) (fun _ => exDocW) (fun s => s))).flatten
        ++ liFrags (fun _ => none) (fun _ => exDocW) (fun s => s) (liA "/x")
        ++ ([liA "/b"].map (liFrags (fun _ => none) (fun _ => exDocW) (fun s => s))).flatten :=
  ⟨C7_fetch_failure_isolated.1 (fun _ => none) (fun _ => exDocW) (fun s => s)
     (liA "/x") (aEl "/x") "/x" (by decide) (by decide) (by decide) rfl,
   C7_fetch_failure_isolated.2 (fun _ => none) (fun _ => exDocW) (fun s => s)
     [liA "/a"] [liA "/b"] (liA "/x")⟩

/-- Claim C8: for every configured topic URL the output file name is the
final non-empty path segment of the URL with ".md" appended. -/
theorem C8_filename (u : String) (hu : u ∈ topicUrls) :
    filenameFor u = finalNonEmptySegment u ++ ".md" := by
  fin_cases hu <;> decide

/-- Claim C8 witness: the first configured topic URL. -/
theorem C8_witness :
    filenameFor "https://www.geeksforgeeks.org/greedy-algorithms/" =
      finalNonEmptySegment "https://www.geeksforgeeks.org/greedy-algorithms/" ++ ".md" :=
  C8_filename _ (by decide)

/-- Claim C10: extraction succeeds exactly on non-empty input — the result is
absent iff the HTML is empty — and any returned record carries the title of
the first `h1` (empty when none) and an empty content string whenever no
article element and no known-class container exists. -/
theorem C10_extract_total (parse : String → Node) (html : String) :
    (extractArticleContent parse html = none ↔ html = "") ∧
    (∀ r : ArticleResult, extractArticleContent parse html = some r →
      r.title = articleTitleOf (parse html) ∧
      (findMainContent (parse html) = none → r.content = "")) := by
  constructor
  · constructor
    · intro h
      by_contra hne
      simp [extractArticleContent, hne] at h
    · intro h
      simp [extractArticleContent, h]
  · intro r hr
    by_cases hne : html = ""
    · rw [extractArticleContent, if_pos hne] at hr
      exact absurd hr (by simp)
    · rw [extractArticleContent, if_neg hne] at hr
      injection hr with hr
      subst hr
      refine ⟨rfl, fun hmc => ?_⟩
      simp [hmc]
      rfl

/-- Claim C10 witness: on a page with neither `article` nor known container,
empty input yields an absent result, and non-empty input yields the empty
title and empty content. -/
theorem C10_witness :
    extractArticleContent (fun _ => exDocNoH1) "" = none ∧
    ({ title := "", content := "" } : ArticleResult).title = articleTitleOf exDocNoH1 ∧
    (findMainContent exDocNoH1 = none →
      ({ title := "", content := "" } : ArticleResult).content = "") :=
  ⟨(C10_extract_total (fun _ => exDocNoH1) "").1.mpr rfl,
   ((C10_extract_total (fun _ => exDocNoH1) "x").2 { title := "", content := "" }
     (by decide)).1,
   ((C10_extract_total (fun _ => exDocNoH1) "x").2 { title := "", content := "" }
     (by decide)).2⟩
